import Mathlib

/-!
Verification of the proof-of-existence claim registry pallet
(`pallets/template/src/lib.rs`).

The pallet keeps one storage map `Proofs : Vec<u8> => (AccountId, BlockNumber)`
and exposes three dispatchables: `create_claim`, `revoke_claim` and
`change_owner_claim`.  We embed the storage map as an association list with
unique keys (only its lookup semantics are observable through the pallet),
account ids and block numbers as naturals, and proofs as byte lists.  Each
dispatchable becomes a pure function from the ledger and its arguments to
either the new ledger together with the deposited event, or the `decl_error!`
value the corresponding `ensure!` raises.  The framework's implicit
`block_number()` becomes an explicit `current_block` argument.
-/

namespace ProofOfExistence

/-- `T::AccountId`, embedded as a natural number. -/
abbrev AccountId := Nat

/-- `T::BlockNumber`, embedded as a natural number. -/
abbrev BlockNumber := Nat

/-- A proof: an opaque byte sequence (`Vec<u8>`), embedded as a list of
naturals compared by exact equality. -/
abbrev Proof := List Nat

/-- The `Proofs` storage map, embedded as an association list from proof to
`(owner, registered_at)`.  `insertClaim` keeps keys unique, so the list always
has at most one entry per proof. -/
abbrev Ledger := List (Proof × AccountId × BlockNumber)

/-- Lookup of a key in the storage map (first matching entry). -/
def lookupClaim : Ledger → Proof → Option (AccountId × BlockNumber)
  | [], _ => none
  | (k, v) :: rest, p => if k = p then some v else lookupClaim rest p

/-- `Proofs::<T>::contains_key(&proof)`. -/
def contains_key (l : Ledger) (p : Proof) : Bool :=
  (lookupClaim l p).isSome

/-- `Proofs::<T>::get(&proof)`: the stored value, or the type default when the
key is absent (FRAME storage-map semantics; the pallet only calls `get` after
`contains_key` has succeeded). -/
def getClaim (l : Ledger) (p : Proof) : AccountId × BlockNumber :=
  (lookupClaim l p).getD (0, 0)

/-- `Proofs::<T>::remove(&proof)`: drop every entry with the given key. -/
def removeClaim : Ledger → Proof → Ledger
  | [], _ => []
  | (k, v) :: rest, p =>
      if k = p then removeClaim rest p else (k, v) :: removeClaim rest p

/-- `Proofs::<T>::insert(&proof, v)`: overwrite any entry at the key. -/
def insertClaim (l : Ledger) (p : Proof) (v : AccountId × BlockNumber) : Ledger :=
  (p, v) :: removeClaim l p

/-- The pallet's `decl_error!` enum. -/
inductive Error
  | ProofAlreadyClaimed
  | NoSuchProof
  | NotProofOwner
deriving DecidableEq, Repr

/-- The pallet's `decl_event!` enum. -/
inductive Event
  | ClaimCreated (who : AccountId) (claim : Proof)
  | ClaimRevoked (who : AccountId) (claim : Proof)
  | ClaimChanged (who : AccountId) (receiver : AccountId) (claim : Proof)
deriving DecidableEq, Repr

/-- `fn create_claim(origin, proof)`.  `sender` is the already-authenticated
signer and `current_block` the value of `block_number()` at this invocation.
Mirrors the source: `ensure!(!Proofs::contains_key(&proof),
ProofAlreadyClaimed)`, then `insert(&proof, (&sender, current_block))`, then
`deposit_event(ClaimCreated(sender, proof))`. -/
def create_claim (l : Ledger) (sender : AccountId) (proof : Proof)
    (current_block : BlockNumber) : Except Error (Ledger × Event) :=
  if contains_key l proof then
    .error .ProofAlreadyClaimed
  else
    .ok (insertClaim l proof (sender, current_block),
         .ClaimCreated sender proof)

/-- `fn revoke_claim(origin, proof)`.  Mirrors the source:
`ensure!(contains_key, NoSuchProof)`, then `let (owner, _) = get(&proof)`,
`ensure!(sender == owner, NotProofOwner)`, then `remove(&proof)` and
`deposit_event(ClaimRevoked(sender, proof))`. -/
def revoke_claim (l : Ledger) (sender : AccountId) (proof : Proof) :
    Except Error (Ledger × Event) :=
  if contains_key l proof then
    let owner := (getClaim l proof).1
    if sender = owner then
      .ok (removeClaim l proof, .ClaimRevoked sender proof)
    else
      .error .NotProofOwner
  else
    .error .NoSuchProof

/-- `fn change_owner_claim(origin, receiver, proof)`.  Mirrors the source:
`ensure!(contains_key, NoSuchProof)`, `let (owner, _) = get(&proof)`,
`ensure!(sender == owner, NotProofOwner)`, then
`insert(&proof, (&receiver, current_block))` and
`deposit_event(ClaimChanged(sender, receiver, proof))`. -/
def change_owner_claim (l : Ledger) (sender receiver : AccountId)
    (proof : Proof) (current_block : BlockNumber) :
    Except Error (Ledger × Event) :=
  if contains_key l proof then
    let owner := (getClaim l proof).1
    if sender = owner then
      .ok (insertClaim l proof (receiver, current_block),
           .ClaimChanged sender receiver proof)
    else
      .error .NotProofOwner
  else
    .error .NoSuchProof

/-- One invocation of a dispatchable, with the invocation's current block
height attached (the framework supplies `block_number()` on every call;
`revoke_claim` does not read it). -/
inductive Op
  | create (caller : AccountId) (proof : Proof) (height : BlockNumber)
  | revoke (caller : AccountId) (proof : Proof) (height : BlockNumber)
  | transfer (caller receiver : AccountId) (proof : Proof) (height : BlockNumber)
deriving DecidableEq, Repr

/-- Dispatch an invocation against a ledger. -/
def Op.run (op : Op) (l : Ledger) : Except Error (Ledger × Event) :=
  match op with
  | .create c p h => create_claim l c p h
  | .revoke c p _ => revoke_claim l c p
  | .transfer c r p h => change_owner_claim l c r p h

/-- The height the framework supplies at this invocation. -/
def Op.height : Op → BlockNumber
  | .create _ _ h => h
  | .revoke _ _ h => h
  | .transfer _ _ _ h => h

/-- The proof an invocation targets. -/
def Op.proof : Op → Proof
  | .create _ p _ => p
  | .revoke _ p _ => p
  | .transfer _ _ p _ => p

/-- Whether the invocation is a create-or-transfer (the two operations that
write `(owner, registered_at)` into the map). -/
def Op.registers : Op → Bool
  | .create _ _ _ => true
  | .revoke _ _ _ => false
  | .transfer _ _ _ _ => true

/-- The ledger after an invocation: the new ledger on success, the old ledger
when the dispatchable failed (an extrinsic that returns an error leaves
storage untouched). -/
def resultLedger (l : Ledger) (r : Except Error (Ledger × Event)) : Ledger :=
  match r with
  | .ok (l2, _) => l2
  | .error _ => l

/-- Apply one invocation to the ledger. -/
def applyOp (l : Ledger) (op : Op) : Ledger :=
  resultLedger l (op.run l)

/-- Apply a sequence of invocations in order. -/
def applyOps (l : Ledger) (ops : List Op) : Ledger :=
  ops.foldl applyOp l

/-- Every `registered_at` stored in the ledger is at most `h`. -/
def heightsLE (l : Ledger) (h : BlockNumber) : Bool :=
  l.all fun e => decide (e.2.2 ≤ h)

/-- The invocation heights of `ops` are non-decreasing and start at or above
`h`. -/
def monoFrom : BlockNumber → List Op → Bool
  | _, [] => true
  | h, op :: rest => decide (h ≤ op.height) && monoFrom op.height rest

/-! ### Storage-map lemmas -/

theorem lookup_removeClaim (l : Ledger) (p q : Proof) :
    lookupClaim (removeClaim l p) q = if p = q then none else lookupClaim l q := by
  induction l with
  | nil => by_cases h : p = q <;> simp [removeClaim, lookupClaim, h]
  | cons e rest ih =>
      obtain ⟨k, v⟩ := e
      by_cases hk : k = p <;> by_cases hq : p = q
      · subst hk; subst hq
        simp [removeClaim, lookupClaim, ih]
      · subst hk
        simp [removeClaim, lookupClaim, ih, hq]
      · subst hq
        simp [removeClaim, lookupClaim, hk, ih]
      · simp [removeClaim, lookupClaim, hk, hq, ih]

theorem lookup_insertClaim (l : Ledger) (p q : Proof) (v : AccountId × BlockNumber) :
    lookupClaim (insertClaim l p v) q = if p = q then some v else lookupClaim l q := by
  simp only [insertClaim, lookupClaim, lookup_removeClaim]
  by_cases h : p = q <;> simp [h]

theorem contains_key_iff (l : Ledger) (p : Proof) :
    contains_key l p = true ↔ ∃ v, lookupClaim l p = some v := by
  simp [contains_key, Option.isSome_iff_exists]

theorem getClaim_eq (l : Ledger) (p : Proof) (v : AccountId × BlockNumber)
    (h : lookupClaim l p = some v) : getClaim l p = v := by
  simp [getClaim, h]

theorem lookupClaim_mem (l : Ledger) (p : Proof) (v : AccountId × BlockNumber)
    (h : lookupClaim l p = some v) : (p, v) ∈ l := by
  induction l with
  | nil => simp [lookupClaim] at h
  | cons f rest ih =>
      obtain ⟨k, w⟩ := f
      rw [lookupClaim] at h
      by_cases hk : k = p
      · subst hk
        simp at h
        subst h
        exact List.mem_cons_self _ _
      · simp [hk] at h
        exact List.mem_cons_of_mem _ (ih h)

theorem mem_removeClaim (l : Ledger) (p : Proof)
    (e : Proof × AccountId × BlockNumber) (h : e ∈ removeClaim l p) : e ∈ l := by
  induction l with
  | nil => simp [removeClaim] at h
  | cons f rest ih =>
      obtain ⟨k, v⟩ := f
      rw [removeClaim] at h
      by_cases hk : k = p
      · simp only [hk, if_pos rfl] at h
        exact List.mem_cons_of_mem _ (ih (by simpa [hk] using h))
      · simp only [if_neg hk, List.mem_cons] at h
        rcases h with h | h
        · exact h ▸ List.mem_cons_self _ _
        · exact List.mem_cons_of_mem _ (ih h)

theorem heightsLE_lookup (l : Ledger) (h : BlockNumber) (p : Proof)
    (a : AccountId) (b : BlockNumber)
    (hle : heightsLE l h = true) (hp : lookupClaim l p = some (a, b)) : b ≤ h := by
  simp only [heightsLE, List.all_eq_true, decide_eq_true_eq] at hle
  exact hle (p, a, b) (lookupClaim_mem l p (a, b) hp)

theorem heightsLE_mono (l : Ledger) (h h' : BlockNumber)
    (hle : heightsLE l h = true) (hh : h ≤ h') : heightsLE l h' = true := by
  simp only [heightsLE, List.all_eq_true, decide_eq_true_eq] at hle ⊢
  exact fun e he => le_trans (hle e he) hh

theorem heightsLE_removeClaim (l : Ledger) (h : BlockNumber) (p : Proof)
    (hle : heightsLE l h = true) : heightsLE (removeClaim l p) h = true := by
  simp only [heightsLE, List.all_eq_true, decide_eq_true_eq] at hle ⊢
  exact fun e he => hle e (mem_removeClaim l p e he)

theorem heightsLE_insertClaim (l : Ledger) (h : BlockNumber) (p : Proof)
    (a : AccountId) (b : BlockNumber)
    (hle : heightsLE l h = true) (hb : b ≤ h) :
    heightsLE (insertClaim l p (a, b)) h = true := by
  have hrem := heightsLE_removeClaim l h p hle
  simp only [heightsLE, List.all_eq_true, decide_eq_true_eq] at hrem ⊢
  intro e he
  rcases List.mem_cons.mp he with he' | he'
  · subst he'; exact hb
  · exact hrem e he'

theorem heightsLE_applyOp (l : Ledger) (op : Op) (h0 : BlockNumber)
    (hle : heightsLE l h0 = true) (hh : h0 ≤ op.height) :
    heightsLE (applyOp l op) op.height = true := by
  have hle' : heightsLE l op.height = true := heightsLE_mono l h0 op.height hle hh
  cases op with
  | create c q hc2 =>
      simp only [Op.height] at hle' ⊢
      by_cases hc : contains_key l q
      · simpa [applyOp, Op.run, create_claim, hc, resultLedger] using hle'
      · rw [show applyOp l (.create c q hc2) = insertClaim l q (c, hc2) from by
          simp [applyOp, Op.run, create_claim, hc, resultLedger]]
        exact heightsLE_insertClaim l hc2 q c hc2 hle' (le_refl _)
  | revoke c q hc2 =>
      simp only [Op.height] at hle' ⊢
      by_cases hc : contains_key l q
      · by_cases hown : c = (getClaim l q).1
        · rw [show applyOp l (.revoke c q hc2) = removeClaim l q from by
            simp [applyOp, Op.run, revoke_claim, hc, hown, resultLedger]]
          exact heightsLE_removeClaim l hc2 q hle'
        · simpa [applyOp, Op.run, revoke_claim, hc, hown, resultLedger] using hle'
      · simpa [applyOp, Op.run, revoke_claim, hc, resultLedger] using hle'
  | transfer c r q hc2 =>
      simp only [Op.height] at hle' ⊢
      by_cases hc : contains_key l q
      · by_cases hown : c = (getClaim l q).1
        · rw [show applyOp l (.transfer c r q hc2) = insertClaim l q (r, hc2) from by
            simp [applyOp, Op.run, change_owner_claim, hc, hown, resultLedger]]
          exact heightsLE_insertClaim l hc2 q r hc2 hle' (le_refl _)
        · simpa [applyOp, Op.run, change_owner_claim, hc, hown, resultLedger] using hle'
      · simpa [applyOp, Op.run, change_owner_claim, hc, resultLedger] using hle'

theorem lookup_applyOp_cases (m : Ledger) (op : Op) (p : Proof)
    (v' : AccountId × BlockNumber)
    (h : lookupClaim (applyOp m op) p = some v') :
    lookupClaim m p = some v' ∨
      (op.proof = p ∧ op.registers = true ∧
        (∃ l2 e, op.run m = .ok (l2, e)) ∧ v'.2 = op.height) := by
  cases op with
  | create c q hc2 =>
      by_cases hc : contains_key m q
      · left
        simpa [applyOp, Op.run, create_claim, hc, resultLedger] using h
      · rw [show applyOp m (.create c q hc2) = insertClaim m q (c, hc2) from by
          simp [applyOp, Op.run, create_claim, hc, resultLedger],
          lookup_insertClaim] at h
        by_cases hq : q = p
        · right
          have hv : v' = (c, hc2) := by
            have := h
            simp [hq] at this
            exact this.symm
          refine ⟨hq, rfl, ⟨insertClaim m q (c, hc2), .ClaimCreated c q,
            by simp [Op.run, create_claim, hc]⟩, ?_⟩
          simp [hv, Op.height]
        · left
          simpa [hq] using h
  | revoke c q hc2 =>
      by_cases hc : contains_key m q
      · by_cases hown : c = (getClaim m q).1
        · rw [show applyOp m (.revoke c q hc2) = removeClaim m q from by
            simp [applyOp, Op.run, revoke_claim, hc, hown, resultLedger],
            lookup_removeClaim] at h
          by_cases hq : q = p
          · simp [hq] at h
          · left
            simpa [hq] using h
        · left
          simpa [applyOp, Op.run, revoke_claim, hc, hown, resultLedger] using h
      · left
        simpa [applyOp, Op.run, revoke_claim, hc, resultLedger] using h
  | transfer c r q hc2 =>
      by_cases hc : contains_key m q
      · by_cases hown : c = (getClaim m q).1
        · rw [show applyOp m (.transfer c r q hc2) = insertClaim m q (r, hc2) from by
            simp [applyOp, Op.run, change_owner_claim, hc, hown, resultLedger],
            lookup_insertClaim] at h
          by_cases hq : q = p
          · right
            have hv : v' = (r, hc2) := by
              have := h
              simp [hq] at this
              exact this.symm
            refine ⟨hq, rfl, ⟨insertClaim m q (r, hc2), .ClaimChanged c r q,
              by simp [Op.run, change_owner_claim, hc, hown]⟩, ?_⟩
            simp [hv, Op.height]
          · left
            simpa [hq] using h
        · left
          simpa [applyOp, Op.run, change_owner_claim, hc, hown, resultLedger] using h
      · left
        simpa [applyOp, Op.run, change_owner_claim, hc, resultLedger] using h

theorem lookup_applyOps_bound (ops : List Op) :
    ∀ (l : Ledger) (h0 : BlockNumber),
      heightsLE l h0 = true → monoFrom h0 ops = true →
      ∀ p a' b', lookupClaim (applyOps l ops) p = some (a', b') →
        lookupClaim l p = some (a', b') ∨ h0 ≤ b' := by
  induction ops with
  | nil =>
      intro l h0 _ _ p a' b' h
      exact .inl (by simpa [applyOps] using h)
  | cons op rest ih =>
      intro l h0 hle hmono p a' b' h
      rw [monoFrom, Bool.and_eq_true, decide_eq_true_eq] at hmono
      obtain ⟨hh0, hrest⟩ := hmono
      have hle' : heightsLE (applyOp l op) op.height = true :=
        heightsLE_applyOp l op h0 hle hh0
      have happ : applyOps l (op :: rest) = applyOps (applyOp l op) rest := rfl
      rw [happ] at h
      rcases ih (applyOp l op) op.height hle' hrest p a' b' h with h1 | h1
      · rcases lookup_applyOp_cases l op p (a', b') h1 with h2 | h2
        · exact .inl h2
        · right
          have hb : b' = op.height := by simpa using h2.2.2.2
          exact le_of_le_of_eq hh0 hb.symm
      · exact .inr (le_trans hh0 h1)

/-! ### Claims -/

/-- C1: for every ledger state, caller, proof and height, `create_claim`
fails with `ProofAlreadyClaimed` and leaves the ledger unchanged exactly when
`proof` is already a key; otherwise it succeeds, inserts
`proof → (owner = caller, registered_at = height)` and emits
`ClaimCreated(caller, proof)`. -/
theorem create_claim_spec (l : Ledger) (caller : AccountId) (proof : Proof)
    (height : BlockNumber) :
    (contains_key l proof = true →
      create_claim l caller proof height = .error .ProofAlreadyClaimed ∧
      applyOp l (.create caller proof height) = l) ∧
    (contains_key l proof = false →
      create_claim l caller proof height =
        .ok (insertClaim l proof (caller, height), .ClaimCreated caller proof) ∧
      lookupClaim (insertClaim l proof (caller, height)) proof =
        some (caller, height)) := by
  constructor
  · intro h
    refine ⟨by simp [create_claim, h], ?_⟩
    simp [applyOp, Op.run, create_claim, h, resultLedger]
  · intro h
    exact ⟨by simp [create_claim, h], by simp [lookup_insertClaim]⟩

theorem create_claim_spec_witness :
    create_claim [([1], 5, 7)] 2 [1] 9 = .error .ProofAlreadyClaimed ∧
    create_claim [] 2 [1] 9 = .ok ([([1], 2, 9)], .ClaimCreated 2 [1]) := by
  refine ⟨((create_claim_spec [([1], 5, 7)] 2 [1] 9).1 (by decide)).1, ?_⟩
  have h := ((create_claim_spec [] 2 [1] 9).2 (by decide)).1
  exact h

/-- C2: whenever `proof` is present and owned by `caller`, `revoke_claim`
succeeds, removes the entry entirely, and emits
`ClaimRevoked(caller, proof)`. -/
theorem revoke_claim_ok (l : Ledger) (caller : AccountId) (proof : Proof)
    (h : BlockNumber) (hl : lookupClaim l proof = some (caller, h)) :
    revoke_claim l caller proof =
      .ok (removeClaim l proof, .ClaimRevoked caller proof) ∧
    lookupClaim (removeClaim l proof) proof = none := by
  have hck : contains_key l proof = true := by simp [contains_key, hl]
  have hg : getClaim l proof = (caller, h) := getClaim_eq _ _ _ hl
  exact ⟨by simp [revoke_claim, hck, hg], by simp [lookup_removeClaim]⟩

theorem revoke_claim_ok_witness :
    revoke_claim [([3], 4, 6)] 4 [3] = .ok ([], .ClaimRevoked 4 [3]) :=
  (revoke_claim_ok [([3], 4, 6)] 4 [3] 6 (by decide)).1

/-- C3: whenever `proof` is present and owned by `caller`, for every receiver
(including `receiver = caller`) `change_owner_claim` succeeds, overwrites the
entry to `proof → (owner = receiver, registered_at = height)` discarding the
previous value, and emits `ClaimChanged(caller, receiver, proof)`. -/
theorem change_owner_claim_ok (l : Ledger) (caller receiver : AccountId)
    (proof : Proof) (h height : BlockNumber)
    (hl : lookupClaim l proof = some (caller, h)) :
    change_owner_claim l caller receiver proof height =
      .ok (insertClaim l proof (receiver, height),
           .ClaimChanged caller receiver proof) ∧
    lookupClaim (insertClaim l proof (receiver, height)) proof =
      some (receiver, height) := by
  have hck : contains_key l proof = true := by simp [contains_key, hl]
  have hg : getClaim l proof = (caller, h) := getClaim_eq _ _ _ hl
  exact ⟨by simp [change_owner_claim, hck, hg], by simp [lookup_insertClaim]⟩

theorem change_owner_claim_ok_witness :
    change_owner_claim [([3], 4, 6)] 4 4 [3] 8 =
      .ok ([([3], 4, 8)], .ClaimChanged 4 4 [3]) :=
  (change_owner_claim_ok [([3], 4, 6)] 4 4 [3] 6 8 (by decide)).1

/-- C4: on a ledger whose keys do not include `proof`, both `revoke_claim`
and `change_owner_claim` fail with `NoSuchProof` (never `NotProofOwner`),
for every caller, receiver and height: the existence check precedes the
ownership check. -/
theorem missing_proof_precedence (l : Ledger) (caller receiver : AccountId)
    (proof : Proof) (height : BlockNumber)
    (hl : lookupClaim l proof = none) :
    revoke_claim l caller proof = .error .NoSuchProof ∧
    change_owner_claim l caller receiver proof height = .error .NoSuchProof := by
  have hck : contains_key l proof = false := by simp [contains_key, hl]
  exact ⟨by simp [revoke_claim, hck], by simp [change_owner_claim, hck]⟩

theorem missing_proof_precedence_witness :
    revoke_claim [([9], 1, 2)] 1 [8] = .error .NoSuchProof ∧
    change_owner_claim [([9], 1, 2)] 1 3 [8] 5 = .error .NoSuchProof :=
  missing_proof_precedence [([9], 1, 2)] 1 3 [8] 5 (by decide)

/-- C5: on a ledger containing `proof → (owner, h)`, any caller different
from `owner` gets `NotProofOwner` from both `revoke_claim` and
`change_owner_claim`, and the ledger state is unchanged. -/
theorem ownership_gate (l : Ledger) (caller owner receiver : AccountId)
    (proof : Proof) (h h' : BlockNumber)
    (hl : lookupClaim l proof = some (owner, h)) (hne : caller ≠ owner) :
    revoke_claim l caller proof = .error .NotProofOwner ∧
    change_owner_claim l caller receiver proof h' = .error .NotProofOwner ∧
    applyOp l (.revoke caller proof h') = l ∧
    applyOp l (.transfer caller receiver proof h') = l := by
  have hck : contains_key l proof = true := by simp [contains_key, hl]
  have hg : getClaim l proof = (owner, h) := getClaim_eq _ _ _ hl
  have hrev : revoke_claim l caller proof = .error .NotProofOwner := by
    simp [revoke_claim, hck, hg, hne]
  have hch : change_owner_claim l caller receiver proof h' =
      .error .NotProofOwner := by
    simp [change_owner_claim, hck, hg, hne]
  refine ⟨hrev, hch, ?_, ?_⟩
  · simp [applyOp, Op.run, hrev, resultLedger]
  · simp [applyOp, Op.run, hch, resultLedger]

theorem ownership_gate_witness :
    revoke_claim [([7], 10, 3)] 11 [7] = .error .NotProofOwner ∧
    change_owner_claim [([7], 10, 3)] 11 12 [7] 4 = .error .NotProofOwner ∧
    applyOp [([7], 10, 3)] (.revoke 11 [7] 4) = [([7], 10, 3)] ∧
    applyOp [([7], 10, 3)] (.transfer 11 12 [7] 4) = [([7], 10, 3)] :=
  ownership_gate [([7], 10, 3)] 11 10 12 [7] 3 4 (by decide) (by decide)

/-- C6: atomicity on failure — whenever any of the three dispatchables
returns an error, the ledger after the invocation is identical to the ledger
before it; no partial mutation occurs. -/
theorem failure_atomic (l : Ledger) (op : Op) (e : Error)
    (h : op.run l = .error e) : applyOp l op = l := by
  simp [applyOp, h, resultLedger]

theorem failure_atomic_witness :
    applyOp [([2], 3, 1)] (.create 9 [2] 5) = [([2], 3, 1)] :=
  failure_atomic [([2], 3, 1)] (.create 9 [2] 5) .ProofAlreadyClaimed rfl

/-- C8: revoke round-trip — starting from a ledger without `p`,
`create_claim(a, p, h)` succeeds, then `revoke_claim(a, p)` succeeds and
leaves `p` absent, and a subsequent `create_claim(b, p, h')` succeeds for
every account `b` and height `h'`. -/
theorem revoke_roundtrip (l : Ledger) (a : AccountId) (p : Proof)
    (h : BlockNumber) (hl : lookupClaim l p = none) :
    create_claim l a p h =
      .ok (insertClaim l p (a, h), .ClaimCreated a p) ∧
    revoke_claim (insertClaim l p (a, h)) a p =
      .ok (removeClaim (insertClaim l p (a, h)) p, .ClaimRevoked a p) ∧
    lookupClaim (removeClaim (insertClaim l p (a, h)) p) p = none ∧
    ∀ b h', create_claim (removeClaim (insertClaim l p (a, h)) p) b p h' =
      .ok (insertClaim (removeClaim (insertClaim l p (a, h)) p) p (b, h'),
           .ClaimCreated b p) := by
  have hck : contains_key l p = false := by simp [contains_key, hl]
  have hl1 : lookupClaim (insertClaim l p (a, h)) p = some (a, h) := by
    simp [lookup_insertClaim]
  have hck1 : contains_key (insertClaim l p (a, h)) p = true := by
    simp [contains_key, hl1]
  have hg1 : getClaim (insertClaim l p (a, h)) p = (a, h) :=
    getClaim_eq _ _ _ hl1
  have hl2 : lookupClaim (removeClaim (insertClaim l p (a, h)) p) p = none := by
    simp [lookup_removeClaim]
  have hck2 : contains_key (removeClaim (insertClaim l p (a, h)) p) p = false := by
    simp [contains_key, hl2]
  refine ⟨by simp [create_claim, hck], by simp [revoke_claim, hck1, hg1],
          hl2, ?_⟩
  intro b h'
  simp [create_claim, hck2]

theorem revoke_roundtrip_witness :
    create_claim [] 4 [6] 1 = .ok ([([6], 4, 1)], .ClaimCreated 4 [6]) ∧
    revoke_claim [([6], 4, 1)] 4 [6] = .ok ([], .ClaimRevoked 4 [6]) ∧
    create_claim [] 5 [6] 2 = .ok ([([6], 5, 2)], .ClaimCreated 5 [6]) := by
  have h := revoke_roundtrip [] 4 [6] 1 (by decide)
  exact ⟨h.1, h.2.1, h.2.2.2 5 2⟩

/-- C9: determinism — each of the three operations is a total function of the
ledger and its arguments; equal ledgers and equal inputs yield equal results
(same new-ledger-and-event, or same error). -/
theorem operations_deterministic (l1 l2 : Ledger) (c1 c2 r1 r2 : AccountId)
    (p1 p2 : Proof) (h1 h2 : BlockNumber)
    (hl : l1 = l2) (hc : c1 = c2) (hr : r1 = r2) (hp : p1 = p2) (hh : h1 = h2) :
    create_claim l1 c1 p1 h1 = create_claim l2 c2 p2 h2 ∧
    revoke_claim l1 c1 p1 = revoke_claim l2 c2 p2 ∧
    change_owner_claim l1 c1 r1 p1 h1 = change_owner_claim l2 c2 r2 p2 h2 := by
  subst hl; subst hc; subst hr; subst hp; subst hh
  exact ⟨rfl, rfl, rfl⟩

theorem operations_deterministic_witness :
    create_claim [] 1 [2] 3 = create_claim [] 1 [2] 3 ∧
    revoke_claim [] 1 [2] = revoke_claim [] 1 [2] ∧
    change_owner_claim [] 1 4 [2] 3 = change_owner_claim [] 1 4 [2] 3 :=
  operations_deterministic [] [] 1 1 4 4 [2] [2] 3 3 rfl rfl rfl rfl rfl

/-- C10: frame property — a successful call of any of the three operations on
key `p` leaves the value of every other key `q ≠ p` exactly as it was. -/
theorem frame_other_keys (l l' : Ledger) (caller receiver : AccountId)
    (p q : Proof) (height : BlockNumber) (e : Event) (hq : q ≠ p) :
    (create_claim l caller p height = .ok (l', e) →
      lookupClaim l' q = lookupClaim l q) ∧
    (revoke_claim l caller p = .ok (l', e) →
      lookupClaim l' q = lookupClaim l q) ∧
    (change_owner_claim l caller receiver p height = .ok (l', e) →
      lookupClaim l' q = lookupClaim l q) := by
  have hpq : p ≠ q := fun h => hq h.symm
  refine ⟨?_, ?_, ?_⟩
  · intro hok
    by_cases h : contains_key l p
    · simp [create_claim, h] at hok
    · simp [create_claim, h] at hok
      obtain ⟨rfl, rfl⟩ := hok
      simp [lookup_insertClaim, hpq]
  · intro hok
    by_cases h : contains_key l p
    · by_cases hown : caller = (getClaim l p).1
      · simp [revoke_claim, h, hown] at hok
        obtain ⟨rfl, rfl⟩ := hok
        simp [lookup_removeClaim, hpq]
      · simp [revoke_claim, h, hown] at hok
    · simp [revoke_claim, h] at hok
  · intro hok
    by_cases h : contains_key l p
    · by_cases hown : caller = (getClaim l p).1
      · simp [change_owner_claim, h, hown] at hok
        obtain ⟨rfl, rfl⟩ := hok
        simp [lookup_insertClaim, hpq]
      · simp [change_owner_claim, h, hown] at hok
    · simp [change_owner_claim, h] at hok

theorem frame_other_keys_witness :
    create_claim [([1], 2, 3)] 7 [4] 5 =
      .ok ([([4], 7, 5), ([1], 2, 3)], .ClaimCreated 7 [4]) ∧
    lookupClaim [([4], 7, 5), ([1], 2, 3)] [1] = lookupClaim [([1], 2, 3)] [1] := by
  refine ⟨rfl, ?_⟩
  exact (frame_other_keys [([1], 2, 3)] [([4], 7, 5), ([1], 2, 3)] 7 0 [4] [1] 5
    (.ClaimCreated 7 [4]) (by decide)).1 rfl

/-- C7: monotonicity of `registered_at` — a present entry whose value changed
under an invocation was written by a successful create-or-transfer on that
very key at the invocation's height (so `registered_at` always records the
most recent successful create-or-transfer); and under a non-decreasing
supply of heights, no sequence of the three operations ever decrements the
stored `registered_at` of a key. -/
theorem registered_at_spec (l : Ledger) (h0 : BlockNumber) (ops : List Op)
    (hle : heightsLE l h0 = true) (hmono : monoFrom h0 ops = true) :
    (∀ (m : Ledger) (op : Op) (p : Proof) (v' : AccountId × BlockNumber),
        lookupClaim (applyOp m op) p = some v' →
        lookupClaim m p = some v' ∨
          (op.proof = p ∧ op.registers = true ∧
            (∃ l2 e, op.run m = .ok (l2, e)) ∧ v'.2 = op.height)) ∧
    (∀ p a b a' b', lookupClaim l p = some (a, b) →
        lookupClaim (applyOps l ops) p = some (a', b') → b ≤ b') := by
  refine ⟨fun m op p v' h => lookup_applyOp_cases m op p v' h, ?_⟩
  intro p a b a' b' h1 h2
  have hb : b ≤ h0 := heightsLE_lookup l h0 p a b hle h1
  rcases lookup_applyOps_bound ops l h0 hle hmono p a' b' h2 with h3 | h3
  · rw [h1] at h3
    have : b = b' := by
      have h4 := Option.some.inj h3
      exact congrArg Prod.snd h4
    exact this.le
  · exact le_trans hb h3

theorem registered_at_spec_witness :
    lookupClaim (applyOps [([1], 2, 3)] [Op.transfer 2 5 [1] 4]) [1] =
      some (5, 4) ∧ (3 : Nat) ≤ 4 := by
  refine ⟨by decide, ?_⟩
  exact (registered_at_spec [([1], 2, 3)] 3 [Op.transfer 2 5 [1] 4]
    (by decide) (by decide)).2 [1] 2 3 5 4 (by decide) (by decide)

end ProofOfExistence
